import Mathlib

/-!
Verification of the deltaskin → RetroArch overlay converter.

Shallow embedding of the geometry / classification / config-generation core
of `convert.py` and `input_mapping.py`.  Pixel and normalized coordinates are
modelled as exact rationals (`ℚ`); the Python code computes with binary
floats and renders them with `:.6f` (coordinates) or `:.2f` (reach values).
We keep coordinates exact and apply the two-decimal rounding of the `:.2f`
format at the point of emission, mirroring where the source formats.
JSON objects become structures with `Option` fields (a missing key is
`none`); Python truthiness of a value (`if not frame`, `if extended.get(..)`)
is translated explicitly at each use site.
-/

/-- A pixel rectangle, as the `frame` objects of the manifest
(`x`, `y`, `width`, `height`). -/
structure Frame where
  x : ℚ
  y : ℚ
  width : ℚ
  height : ℚ
deriving DecidableEq, Repr

/-- The `mappingSize` object of an orientation: the reference coordinate
space all pixel positions of that orientation live in. -/
structure MappingSize where
  width : ℚ
  height : ℚ
deriving DecidableEq, Repr

/-- The `inputs` value of an item: either a JSON array of button-identifier
strings or a JSON object mapping direction names to input names
(association list; manifest objects have distinct keys). -/
inductive Inputs where
  | list (xs : List String)
  | dict (kvs : List (String × String))
deriving DecidableEq, Repr

/-- The `extendedEdges` object: up to four per-edge pixel extensions.
A key absent from the JSON object is `none`. -/
structure ExtendedEdges where
  top : Option ℚ
  bottom : Option ℚ
  left : Option ℚ
  right : Option ℚ
deriving DecidableEq, Repr

/-- One input item of an orientation. `frame` and `inputs` can be missing
(`item.get` in the source); `extendedEdges` defaults to the empty object. -/
structure Item where
  frame : Option Frame
  inputs : Option Inputs
  extendedEdges : Option ExtendedEdges
deriving DecidableEq, Repr

/-- Table `DELTA_TO_RETROARCH` from `input_mapping.py`: Delta button identifier →
RetroArch input name, where a `None` value (the DS touch axes) is `none`. -/
def DELTA_TO_RETROARCH : List (String × Option String) :=
  [("a", some "a"), ("b", some "b"), ("x", some "x"), ("y", some "y"),
   ("l", some "l"), ("r", some "r"),
   ("start", some "start"), ("select", some "select"),
   ("menu", some "menu_toggle"),
   ("z", some "l2"),
   ("cUp", some "r_y_minus"), ("cDown", some "r_y_plus"),
   ("cLeft", some "r_x_minus"), ("cRight", some "r_x_plus"),
   ("up", some "up"), ("down", some "down"),
   ("left", some "left"), ("right", some "right"),
   ("analogStickUp", some "l_y_minus"), ("analogStickDown", some "l_y_plus"),
   ("analogStickLeft", some "l_x_minus"), ("analogStickRight", some "l_x_plus"),
   ("touchScreenX", none), ("touchScreenY", none)]

/-- Lookup `DELTA_TO_RETROARCH.get(k, k)`: table lookup with identity fallback.
The result is `none` exactly when the table maps `k` to Python `None`. -/
def delta_get (k : String) : Option String :=
  match DELTA_TO_RETROARCH.lookup k with
  | some v => v
  | none => some k

/-- Function `normalize_frame`: pixel rectangle → normalized center + half-extents. -/
def normalize_frame (frame : Frame) (mapping_size : MappingSize) : ℚ × ℚ × ℚ × ℚ :=
  ((frame.x + frame.width / 2) / mapping_size.width,
   (frame.y + frame.height / 2) / mapping_size.height,
   (frame.width / 2) / mapping_size.width,
   (frame.height / 2) / mapping_size.height)

/-- Running minimum of a list, seeded with the first element
(`min(f[k] for f in frames)` over a non-empty sequence). -/
def minFold (a : ℚ) : List ℚ → ℚ
  | [] => a
  | q :: l => minFold (min a q) l

/-- Running maximum of a list, seeded with the first element. -/
def maxFold (a : ℚ) : List ℚ → ℚ
  | [] => a
  | q :: l => maxFold (max a q) l

/-- Function `compute_bounding_box`: minimal axis-aligned rectangle covering all the
given frames; `none` on the empty sequence. -/
def compute_bounding_box : List Frame → Option Frame
  | [] => none
  | f :: fs =>
    let min_x := minFold f.x (fs.map Frame.x)
    let min_y := minFold f.y (fs.map Frame.y)
    let max_x := maxFold (f.x + f.width) (fs.map (fun g => g.x + g.width))
    let max_y := maxFold (f.y + f.height) (fs.map (fun g => g.y + g.height))
    some ⟨min_x, min_y, max_x - min_x, max_y - min_y⟩

/-- Predicate `is_dpad`: `inputs` is a mapping whose keys include all four cardinal
directions (the source checks membership only, not exhaustiveness). -/
def is_dpad : Inputs → Bool
  | .list _ => false
  | .dict kvs =>
    ["up", "down", "left", "right"].all (fun k => kvs.any (fun p => p.1 == k))

/-- The four analog-stick direction markers of `is_analog_stick`. -/
def analog_values : List String :=
  ["analogStickUp", "analogStickDown", "analogStickLeft", "analogStickRight"]

/-- Predicate `is_analog_stick`: some value of the mapping is an analog-stick marker. -/
def is_analog_stick : Inputs → Bool
  | .list _ => false
  | .dict kvs => kvs.any (fun p => analog_values.contains p.2)

/-- Python truthiness of an `inputs` value (`if not frame or not inputs`):
an empty array or empty object is falsy. -/
def inputsTruthy : Inputs → Bool
  | .list xs => !xs.isEmpty
  | .dict kvs => !kvs.isEmpty

/-- The rounding performed by the `:.2f` format on a reach value
(idealized over ℚ; the source rounds the nearest binary float). -/
def round2 (q : ℚ) : ℚ := (round (q * 100) : ℤ) / 100

/-- One edge of the reach modifier of a descriptor, named as in the emitted
`_reach_<edge>` suffix (`top ↦ up`, `bottom ↦ down`). -/
inductive Edge where
  | up | down | left | right
deriving DecidableEq, Repr

/-- Shape tag of a main descriptor line. -/
inductive Shape where
  | radial | rect
deriving DecidableEq, Repr

/-- One emitted descriptor-block line, structured instead of rendered:
`desc oi i name cx cy shape hw hh` stands for
`overlay<oi>_desc<i> = "<name>,<cx>,<cy>,<shape>,<hw>,<hh>"`,
`reach oi i e v` for `overlay<oi>_desc<i>_reach_<e> = <v>`, and
`nextTarget oi i t` for `overlay<oi>_desc<i>_next_target = "<t>"`. -/
inductive DescLine where
  | desc (overlayIdx idx : Nat) (name : String) (cx cy : ℚ) (shape : Shape) (hw hh : ℚ)
  | reach (overlayIdx idx : Nat) (edge : Edge) (value : ℚ)
  | nextTarget (overlayIdx idx : Nat) (target : String)
deriving DecidableEq, Repr

/-- Python truthiness of `extended.get(edge)`: present and non-zero. -/
def edgeTruthy : Option ℚ → Bool
  | some v => v != 0
  | none => false

/-- The reach lines contributed by one edge entry:
`1 + extendedEdges[edge] / (frame.dim / 2)`, rendered with `:.2f`. -/
def edgeReach (overlay_index index : Nat) (e : Edge) (entry : Option ℚ) (dim : ℚ) :
    List DescLine :=
  match entry with
  | some v => if v == 0 then [] else [.reach overlay_index index e (round2 (1 + v / (dim / 2)))]
  | none => []

/-- The `extendedEdges` handling at the end of `convert_item_to_descriptor`:
read the extendedEdges object with an empty-object default, then emit one `_reach_` line per
truthy edge entry, in source order top, bottom, left, right. -/
def reach_lines (item : Item) (frame : Frame) (overlay_index index : Nat) : List DescLine :=
  match item.extendedEdges with
  | none => []
  | some extended =>
    edgeReach overlay_index index .up extended.top frame.height ++
    edgeReach overlay_index index .down extended.bottom frame.height ++
    edgeReach overlay_index index .left extended.left frame.width ++
    edgeReach overlay_index index .right extended.right frame.width

/-- Function `convert_item_to_descriptor`: classify one item and emit its descriptor
lines.  Items missing `frame` or with a missing/empty `inputs` emit nothing
(`if not frame or not inputs`). -/
def convert_item_to_descriptor (item : Item) (mapping_size : MappingSize)
    (index : Nat) (overlay_index : Nat) : List DescLine :=
  match item.frame, item.inputs with
  | some frame, some inputs =>
    if inputsTruthy inputs then
      let (x, y, w, h) := normalize_frame frame mapping_size
      let mainLines : List DescLine :=
        match inputs with
        | .list [] => []
        | .list (first :: _) =>
          match delta_get first with
          | some ra_input =>
            if ra_input == "" then []
            else [.desc overlay_index index ra_input x y .radial w h]
          | none => []
        | .dict _ =>
          if is_analog_stick inputs then
            [.desc overlay_index index "analog_left" x y .radial w h]
          else if is_dpad inputs then
            [.desc overlay_index index "dpad_area" x y .rect w h]
          else []
      mainLines ++ reach_lines item frame overlay_index index
    else []
  | _, _ => []

/-- One entry of the `screens` array of an orientation; either frame key may be
missing. -/
structure Screen where
  outputFrame : Option Frame
  inputFrame : Option Frame
deriving DecidableEq, Repr

/-- The per-orientation data `generate_overlay_config` reads: `mappingSize`,
`items`, `screens` (defaulting to the empty array) and `gameScreenFrame`. -/
structure OrientationData where
  mappingSize : MappingSize
  items : List Item
  screens : List Screen
  gameScreenFrame : Option Frame
deriving DecidableEq, Repr

/-- One line of the generated `.cfg`, structured instead of rendered.
Coordinates and ratios are kept exact; the source renders them `:.6f`. -/
inductive ConfigLine where
  | overlays (n : Nat)
  | blank
  | name (overlayIdx : Nat) (orientationLabel : String)
  | image (overlayIdx : Nat) (img : String)
  | fullScreen (overlayIdx : Nat) (b : Bool)
  | normalizedFlag (overlayIdx : Nat) (b : Bool)
  | aspectRatio (overlayIdx : Nat) (r : ℚ)
  | viewport (overlayIdx : Nat) (x y w h : ℚ)
  | descs (overlayIdx : Nat) (n : Nat)
  | descLine (l : DescLine)
deriving DecidableEq, Repr

/-- The `for i, item in enumerate(items)` loop: concatenate the descriptor lines of every item, indices assigned by source position starting at `idx`. -/
def itemDescLines (items : List Item) (mapping_size : MappingSize)
    (idx overlay_index : Nat) : List DescLine :=
  match items with
  | [] => []
  | it :: rest =>
    convert_item_to_descriptor it mapping_size idx overlay_index ++
    itemDescLines rest mapping_size (idx + 1) overlay_index

/-- The synthetic rotation descriptor placed near top center; portrait and
landscape use different literal geometry in the source. -/
def rotateDesc (orientationLabel : String) (overlay_index rotate_idx : Nat) : DescLine :=
  if orientationLabel == "portrait" then
    .desc overlay_index rotate_idx "overlay_next" 0.5 0.02 .radial 0.04 0.02
  else
    .desc overlay_index rotate_idx "overlay_next" 0.5 0.04 .radial 0.02 0.04

/-- The descriptor block of one overlay: all item descriptors in source
order, then — only when more than one overlay exists — the synthetic rotate
descriptor at index `items.length` and its `_next_target` line. -/
def descPart (orientationLabel : String) (overlay_index num_overlays : Nat)
    (data : OrientationData) : List DescLine :=
  let base := itemDescLines data.items data.mappingSize 0 overlay_index
  if num_overlays > 1 then
    let rotate_idx := data.items.length
    let other := if orientationLabel == "portrait" then "landscape" else "portrait"
    base ++ [rotateDesc orientationLabel overlay_index rotate_idx,
             .nextTarget overlay_index rotate_idx other]
  else base

/-- The `_descs` count of one overlay: `len(items)`, plus one for the
synthetic rotate descriptor when more than one overlay exists. -/
def numDescs (num_overlays : Nat) (data : OrientationData) : Nat :=
  if num_overlays > 1 then data.items.length + 1 else data.items.length

/-- Viewport selection of `generate_overlay_config`: prefer the bounding box
of the `outputFrame` of each screen (falling back per screen to `inputFrame`),
else a synthesized single-screen list from `gameScreenFrame`, else
`gameScreenFrame` directly. -/
def selectViewport (data : OrientationData) : Option Frame :=
  let screen_frames : List Screen :=
    if data.screens.isEmpty then
      match data.gameScreenFrame with
      | some gsf => [⟨some gsf, none⟩]
      | none => []
    else data.screens
  if screen_frames.isEmpty then data.gameScreenFrame
  else
    let frames := screen_frames.filterMap
      (fun s => match s.outputFrame with
                | some f => some f
                | none => s.inputFrame)
    if frames.isEmpty then data.gameScreenFrame
    else compute_bounding_box frames

/-- The optional viewport line of one overlay: the selected viewport
rectangle normalized by the mapping size of the same orientation. -/
def viewportLines (overlay_index : Nat) (data : OrientationData) : List ConfigLine :=
  match selectViewport data with
  | some vp => [.viewport overlay_index (vp.x / data.mappingSize.width)
                  (vp.y / data.mappingSize.height)
                  (vp.width / data.mappingSize.width)
                  (vp.height / data.mappingSize.height)]
  | none => []

/-- One iteration of the orientation loop: header lines, optional viewport
line, `_descs` count, and the descriptor block, with blank separators as in
the source. -/
def overlayBlock (orientationLabel : String) (overlay_index num_overlays : Nat)
    (data : OrientationData) (aspect : ℚ) (img_name : String) : List ConfigLine :=
  [ConfigLine.name overlay_index orientationLabel,
   ConfigLine.image overlay_index img_name,
   ConfigLine.fullScreen overlay_index true,
   ConfigLine.normalizedFlag overlay_index true,
   ConfigLine.aspectRatio overlay_index aspect] ++
  viewportLines overlay_index data ++
  [ConfigLine.blank,
   ConfigLine.descs overlay_index (numDescs num_overlays data),
   ConfigLine.blank] ++
  (descPart orientationLabel overlay_index num_overlays data).map ConfigLine.descLine ++
  [ConfigLine.blank]

/-- The orientation loop of `generate_overlay_config`: `overlay_index`
advances only for orientations that are processed. -/
def genLoop (orientations : List String) (overlay_index num_overlays : Nat)
    (portrait_data landscape_data : Option OrientationData) : List ConfigLine :=
  match orientations with
  | [] => []
  | o :: rest =>
    let selected : Option (OrientationData × ℚ × String) :=
      if o == "portrait" then
        match portrait_data with
        | some d => some (d, d.mappingSize.height / d.mappingSize.width, "portrait.png")
        | none => none
      else if o == "landscape" then
        match landscape_data with
        | some d => some (d, d.mappingSize.width / d.mappingSize.height, "landscape.png")
        | none => none
      else none
    match selected with
    | none => genLoop rest overlay_index num_overlays portrait_data landscape_data
    | some (data, aspect, img) =>
      overlayBlock o overlay_index num_overlays data aspect img ++
      genLoop rest (overlay_index + 1) num_overlays portrait_data landscape_data

/-- Function `generate_overlay_config` (its unused `skin_name` and `device`
parameters are omitted): top-level `overlays` count, blank line, then one
block per processed orientation. -/
def generate_overlay_config (orientations : List String)
    (portrait_data landscape_data : Option OrientationData) : List ConfigLine :=
  ConfigLine.overlays orientations.length :: ConfigLine.blank ::
  genLoop orientations 0 orientations.length portrait_data landscape_data

/-- The orientation list built by the driver (`convert_deltaskin`): `portrait` when
portrait data exists, then `landscape` when landscape data exists. -/
def mkOrientations (portrait_data landscape_data : Option OrientationData) : List String :=
  (if portrait_data.isSome then ["portrait"] else []) ++
  (if landscape_data.isSome then ["landscape"] else [])

/-- Recognizer for main descriptor lines (the `desc` constructor). -/
def isMainDesc : DescLine → Bool
  | .desc .. => true
  | _ => false

/-- Recognizer for reach modifier lines. -/
def isReachLine : DescLine → Bool
  | .reach .. => true
  | _ => false

/-- Recognizer for a reach line of one particular edge. -/
def isReachFor (e : Edge) : DescLine → Bool
  | .reach _ _ e2 _ => e2 == e
  | _ => false

/-- Recognizer for `_next_target` config lines. -/
def isNextTargetLine : ConfigLine → Bool
  | .descLine (.nextTarget ..) => true
  | _ => false

/-- Recognizer for `_descs` count config lines. -/
def isDescsLine : ConfigLine → Bool
  | .descs .. => true
  | _ => false

/-- The `extendedEdges` entry belonging to an output edge name
(`up ↦ top`, `down ↦ bottom`). -/
def edgeEntry (ee : ExtendedEdges) : Edge → Option ℚ
  | .up => ee.top
  | .down => ee.bottom
  | .left => ee.left
  | .right => ee.right

/-- The frame dimension dividing the extension of an edge: height for the
vertical edges, width for the horizontal ones. -/
def edgeDim (f : Frame) : Edge → ℚ
  | .up => f.height
  | .down => f.height
  | .left => f.width
  | .right => f.width

theorem edgeReach_filter_main (oi i : Nat) (e : Edge) (entry : Option ℚ) (dim : ℚ) :
    (edgeReach oi i e entry dim).filter isMainDesc = [] := by
  cases entry with
  | none => rfl
  | some v =>
    simp only [edgeReach]
    split
    · rfl
    · simp [isMainDesc]

theorem reach_lines_filter_main (it : Item) (f : Frame) (oi i : Nat) :
    (reach_lines it f oi i).filter isMainDesc = [] := by
  unfold reach_lines
  cases it.extendedEdges with
  | none => rfl
  | some ee => simp [List.filter_append, edgeReach_filter_main]

/-- C1: for an item with a frame whose `inputs` mapping has an analog-stick
direction marker among its values, classification emits exactly one main
descriptor: a `radial` one named `analog_left` — regardless of whether the
keys would also match the d-pad pattern. -/
theorem C1_analog_stick_precedence (item : Item) (f : Frame)
    (kvs : List (String × String)) (ms : MappingSize) (i oi : Nat)
    (hf : item.frame = some f) (hin : item.inputs = some (Inputs.dict kvs))
    (ha : kvs.any (fun p => analog_values.contains p.2) = true) :
    (convert_item_to_descriptor item ms i oi).filter isMainDesc =
      [DescLine.desc oi i "analog_left"
        ((f.x + f.width / 2) / ms.width) ((f.y + f.height / 2) / ms.height)
        Shape.radial ((f.width / 2) / ms.width) ((f.height / 2) / ms.height)] := by
  have hne : kvs ≠ [] := by
    intro h
    subst h
    simp at ha
  unfold convert_item_to_descriptor
  rw [hf, hin]
  have htruthy : inputsTruthy (Inputs.dict kvs) = true := by
    simp [inputsTruthy, List.isEmpty_iff, hne]
  simp only [htruthy, if_true, normalize_frame, is_analog_stick, ha,
    List.filter_append, reach_lines_filter_main, List.append_nil]
  simp [isMainDesc]

/-- Witness for C1 at the dual-pattern example of the spec: the four cardinal
keys carry the four analog markers as values. -/
theorem C1_witness :
    (convert_item_to_descriptor
      ⟨some ⟨0, 0, 10, 10⟩,
       some (Inputs.dict [("up", "analogStickUp"), ("down", "analogStickDown"),
                          ("left", "analogStickLeft"), ("right", "analogStickRight")]),
       none⟩ ⟨10, 10⟩ 3 0).filter isMainDesc =
      [DescLine.desc 0 3 "analog_left"
        ((0 + 10 / 2) / 10) ((0 + 10 / 2) / 10)
        Shape.radial ((10 / 2) / 10) ((10 / 2) / 10)] :=
  C1_analog_stick_precedence _ _ _ _ _ _ rfl rfl (by decide)

/-- C2 counterexample: a mapping whose keys are the four cardinal directions
plus an extra key `b` is still classified as a d-pad by the source
(`is_dpad` checks membership of the four keys, not exhaustiveness), so a
`rect` main descriptor is emitted although the keys are not exactly the four
cardinal directions — refuting the only-if direction of the claim. -/
theorem C2_counterexample :
    (convert_item_to_descriptor
      ⟨some ⟨0, 0, 10, 10⟩,
       some (Inputs.dict [("up", "up"), ("down", "down"), ("left", "left"),
                          ("right", "right"), ("b", "b")]),
       none⟩ ⟨10, 10⟩ 0 0).filter isMainDesc =
      [DescLine.desc 0 0 "dpad_area"
        ((0 + 10 / 2) / 10) ((0 + 10 / 2) / 10)
        Shape.rect ((10 / 2) / 10) ((10 / 2) / 10)] := rfl

/-- C2 (amended): for a mapping with no analog-stick marker among its
values, one `rect` main descriptor named `dpad_area` is emitted exactly when
the keys include all four cardinal directions (extra keys are allowed); in
every other case no main descriptor line is emitted. -/
theorem C2_dpad_classification (item : Item) (f : Frame)
    (kvs : List (String × String)) (ms : MappingSize) (i oi : Nat)
    (hf : item.frame = some f) (hin : item.inputs = some (Inputs.dict kvs))
    (hna : kvs.any (fun p => analog_values.contains p.2) = false) :
    ((["up", "down", "left", "right"].all (fun k => kvs.any (fun p => p.1 == k)) = true →
      (convert_item_to_descriptor item ms i oi).filter isMainDesc =
        [DescLine.desc oi i "dpad_area"
          ((f.x + f.width / 2) / ms.width) ((f.y + f.height / 2) / ms.height)
          Shape.rect ((f.width / 2) / ms.width) ((f.height / 2) / ms.height)]) ∧
     (["up", "down", "left", "right"].all (fun k => kvs.any (fun p => p.1 == k)) = false →
      (convert_item_to_descriptor item ms i oi).filter isMainDesc = [])) := by
  obtain ⟨fr, inp, ee⟩ := item
  simp only at hf hin
  subst hf hin
  constructor
  · intro hall
    have hne : kvs ≠ [] := by
      intro h
      subst h
      simp [List.all] at hall
    have htruthy : inputsTruthy (Inputs.dict kvs) = true := by
      simp [inputsTruthy, List.isEmpty_iff, hne]
    unfold convert_item_to_descriptor
    simp only [htruthy, if_true, normalize_frame, is_analog_stick, hna, is_dpad, hall,
      Bool.false_eq_true, if_false, List.filter_append, reach_lines_filter_main,
      List.append_nil]
    simp [isMainDesc]
  · intro hall
    rcases hk : kvs with _ | ⟨p, t⟩
    · rfl
    · rw [← hk]
      have htruthy : inputsTruthy (Inputs.dict kvs) = true := by
        simp [inputsTruthy, List.isEmpty_iff, hk]
      unfold convert_item_to_descriptor
      simp only [htruthy, if_true, is_analog_stick, hna, is_dpad, hall,
        Bool.false_eq_true, if_false, List.filter_append, reach_lines_filter_main,
        List.append_nil, List.nil_append, List.filter_nil]

/-- Witness for the amended C2 theorem at the example mapping of the spec (both
directions: the pure four-key d-pad, and a mapping missing `right`). -/
theorem C2_witness :
    ((["up", "down", "left", "right"].all
        (fun k => [("up", "up"), ("down", "down"), ("left", "left"), ("right", "right")].any
          (fun p => p.1 == k)) = true →
      (convert_item_to_descriptor
        ⟨some ⟨0, 0, 10, 10⟩,
         some (Inputs.dict [("up", "up"), ("down", "down"), ("left", "left"),
                            ("right", "right")]),
         none⟩ ⟨10, 10⟩ 0 0).filter isMainDesc =
        [DescLine.desc 0 0 "dpad_area"
          ((0 + 10 / 2) / 10) ((0 + 10 / 2) / 10)
          Shape.rect ((10 / 2) / 10) ((10 / 2) / 10)]) ∧
     (["up", "down", "left", "right"].all
        (fun k => [("up", "up"), ("down", "down"), ("left", "left"), ("right", "right")].any
          (fun p => p.1 == k)) = false →
      (convert_item_to_descriptor
        ⟨some ⟨0, 0, 10, 10⟩,
         some (Inputs.dict [("up", "up"), ("down", "down"), ("left", "left"),
                            ("right", "right")]),
         none⟩ ⟨10, 10⟩ 0 0).filter isMainDesc = [])) :=
  C2_dpad_classification _ ⟨0, 0, 10, 10⟩ _ _ 0 0 rfl rfl (by decide)

theorem lookup_satisfies {α β : Type} [BEq α] (P : β → Prop)
    (l : List (α × β)) (k : α) (v : β)
    (hall : ∀ p ∈ l, P p.2) (hlk : l.lookup k = some v) : P v := by
  induction l with
  | nil => simp [List.lookup] at hlk
  | cons p t ih =>
    rw [List.lookup] at hlk
    rcases h : k == p.1 with _ | _
    · rw [h] at hlk
      exact ih (fun q hq => hall q (List.mem_cons_of_mem p hq)) hlk
    · rw [h] at hlk
      injection hlk with hv
      subst hv
      exact hall p (List.mem_cons_self p t)

/-- No entry of the mapping table carries the empty string as a target
name, so a non-empty identifier never resolves to the empty string. -/
theorem delta_get_ne_empty (k : String) (hk : k ≠ "") (s : String)
    (h : delta_get k = some s) : s ≠ "" := by
  unfold delta_get at h
  cases hl : DELTA_TO_RETROARCH.lookup k with
  | none =>
    rw [hl] at h
    injection h with h
    subst h
    exact hk
  | some v =>
    rw [hl] at h
    have hv : (fun o => o ≠ some "") v :=
      lookup_satisfies (fun o => o ≠ some "") DELTA_TO_RETROARCH k v (by decide) hl
    intro hs
    subst hs
    exact hv h

/-- C3: for an item whose `inputs` is a non-empty list of identifiers, the
main descriptor (if any) is a `radial` one named by the table lookup of the
first element with identity fallback; a `none` target (the touch axes)
emits no main line; the remaining list elements are ignored entirely.  The
concrete resolutions of the spec for `a`, `menu` and `touchScreenX` are included. -/
theorem C3_button_list (item : Item) (f : Frame) (first : String)
    (rest : List String) (ms : MappingSize) (i oi : Nat)
    (hf : item.frame = some f) (hin : item.inputs = some (Inputs.list (first :: rest)))
    (hk : first ≠ "") :
    ((convert_item_to_descriptor item ms i oi).filter isMainDesc =
       (match delta_get first with
        | some s => [DescLine.desc oi i s
            ((f.x + f.width / 2) / ms.width) ((f.y + f.height / 2) / ms.height)
            Shape.radial ((f.width / 2) / ms.width) ((f.height / 2) / ms.height)]
        | none => [])) ∧
    convert_item_to_descriptor item ms i oi =
      convert_item_to_descriptor ⟨item.frame, some (Inputs.list [first]), item.extendedEdges⟩
        ms i oi ∧
    delta_get "a" = some "a" ∧
    delta_get "menu" = some "menu_toggle" ∧
    delta_get "touchScreenX" = none := by
  obtain ⟨fr, inp, ee⟩ := item
  simp only at hf hin ⊢
  subst hf hin
  refine ⟨?_, ?_, rfl, rfl, rfl⟩
  · unfold convert_item_to_descriptor
    simp only [inputsTruthy, List.isEmpty_cons, Bool.not_false, if_true, normalize_frame]
    cases hd : delta_get first with
    | none =>
      simp only [hd, List.nil_append, List.filter_append, reach_lines_filter_main,
        List.append_nil, List.filter_nil]
    | some s =>
      have hs : s ≠ "" := delta_get_ne_empty first hk s hd
      simp only [hd, beq_iff_eq, hs, if_false, List.filter_append,
        reach_lines_filter_main, List.append_nil]
      simp [isMainDesc]
  · rfl

/-- Witness for C3 at `inputs = ["menu", "b"]`: the first element resolves
through the table to `menu_toggle` and the second element is ignored. -/
theorem C3_witness :
    ((convert_item_to_descriptor
        ⟨some ⟨0, 0, 10, 10⟩, some (Inputs.list ["menu", "b"]), none⟩
        ⟨10, 10⟩ 0 0).filter isMainDesc =
       (match delta_get "menu" with
        | some s => [DescLine.desc 0 0 s
            ((0 + 10 / 2) / 10) ((0 + 10 / 2) / 10)
            Shape.radial ((10 / 2) / 10) ((10 / 2) / 10)]
        | none => [])) ∧
    convert_item_to_descriptor
        ⟨some ⟨0, 0, 10, 10⟩, some (Inputs.list ["menu", "b"]), none⟩ ⟨10, 10⟩ 0 0 =
      convert_item_to_descriptor
        ⟨some ⟨0, 0, 10, 10⟩, some (Inputs.list ["menu"]), none⟩ ⟨10, 10⟩ 0 0 ∧
    delta_get "a" = some "a" ∧
    delta_get "menu" = some "menu_toggle" ∧
    delta_get "touchScreenX" = none :=
  C3_button_list _ ⟨0, 0, 10, 10⟩ "menu" ["b"] _ 0 0 rfl rfl (by decide)

theorem edgeReach_eq (oi i : Nat) (e : Edge) (entry : Option ℚ) (dim : ℚ) :
    edgeReach oi i e entry dim =
      match entry with
      | some v => if v == 0 then []
                  else [DescLine.reach oi i e (round2 (1 + v / (dim / 2)))]
      | none => [] := rfl

theorem edgeReach_filter_self (oi i : Nat) (e : Edge) (entry : Option ℚ) (dim : ℚ) :
    (edgeReach oi i e entry dim).filter (isReachFor e) = edgeReach oi i e entry dim := by
  cases entry with
  | none => rfl
  | some v =>
    simp only [edgeReach]
    split
    · rfl
    · simp [isReachFor]

theorem edgeReach_filter_ne (oi i : Nat) (e e2 : Edge) (h : e2 ≠ e)
    (entry : Option ℚ) (dim : ℚ) :
    (edgeReach oi i e2 entry dim).filter (isReachFor e) = [] := by
  cases entry with
  | none => rfl
  | some v =>
    simp only [edgeReach]
    split
    · rfl
    · simp [isReachFor, h]

theorem reach_lines_filter_edge (it : Item) (f : Frame) (oi i : Nat) (e : Edge) :
    (reach_lines it f oi i).filter (isReachFor e) =
      (match it.extendedEdges with
       | some ee => edgeReach oi i e (edgeEntry ee e) (edgeDim f e)
       | none => []) := by
  unfold reach_lines
  cases it.extendedEdges with
  | none => rfl
  | some ee =>
    cases e <;>
      simp [List.filter_append, edgeReach_filter_self, edgeReach_filter_ne,
        edgeEntry, edgeDim]

theorem convert_split (item : Item) (f : Frame) (inp : Inputs) (ms : MappingSize)
    (i oi : Nat) (hf : item.frame = some f) (hin : item.inputs = some inp)
    (ht : inputsTruthy inp = true) :
    ∃ main, convert_item_to_descriptor item ms i oi = main ++ reach_lines item f oi i ∧
      main.all isMainDesc = true := by
  obtain ⟨fr, inpo, ee⟩ := item
  simp only at hf hin
  subst hf hin
  unfold convert_item_to_descriptor
  simp only [ht, if_true]
  cases inp with
  | list xs =>
    cases xs with
    | nil => simp [inputsTruthy] at ht
    | cons a t =>
      cases hd : delta_get a with
      | none =>
        refine ⟨[], ?_, rfl⟩
        simp only [hd, List.nil_append]
      | some s =>
        cases hs : (s == "") with
        | true =>
          refine ⟨[], ?_, rfl⟩
          simp only [hd, hs, if_true, List.nil_append]
        | false =>
          simp only [hd, hs, Bool.false_eq_true, if_false]
          refine ⟨_, rfl, ?_⟩
          simp [isMainDesc]
  | dict kvs =>
    cases ha : is_analog_stick (Inputs.dict kvs) with
    | true =>
      simp only [ha, if_true]
      refine ⟨_, rfl, ?_⟩
      simp [isMainDesc]
    | false =>
      cases hdp : is_dpad (Inputs.dict kvs) with
      | true =>
        simp only [ha, hdp, Bool.false_eq_true, if_false, if_true]
        refine ⟨_, rfl, ?_⟩
        simp [isMainDesc]
      | false =>
        refine ⟨[], ?_, rfl⟩
        simp only [ha, hdp, Bool.false_eq_true, if_false, List.nil_append]

/-- C4 counterexample: an item with a frame and a non-zero `extendedEdges.top`
but no `inputs` value emits no reach line at all (the source returns early on
`not inputs`), refuting the claim as stated for items without inputs. -/
theorem C4_counterexample :
    convert_item_to_descriptor
      ⟨some ⟨0, 0, 10, 10⟩, none, some ⟨some 10, none, none, none⟩⟩
      ⟨10, 10⟩ 0 0 = [] := rfl

/-- C4 (amended): for an item with a frame, a non-empty `inputs` value, and
an `extendedEdges` mapping, exactly one reach line is emitted per edge whose
entry is present and non-zero, valued `1 + extendedEdges[edge] / (dim / 2)`
rounded to two decimals, where `dim` is the frame height for the vertical
edges and the frame width for the horizontal ones; an absent or zero entry
emits no line for that edge. -/
theorem C4_extended_edges (item : Item) (f : Frame) (inp : Inputs)
    (ee : ExtendedEdges) (ms : MappingSize) (i oi : Nat) (e : Edge)
    (hf : item.frame = some f) (hin : item.inputs = some inp)
    (ht : inputsTruthy inp = true) (hee : item.extendedEdges = some ee) :
    (convert_item_to_descriptor item ms i oi).filter (isReachFor e) =
      (match edgeEntry ee e with
       | some v => if v == 0 then []
                   else [DescLine.reach oi i e (round2 (1 + v / (edgeDim f e / 2)))]
       | none => []) := by
  obtain ⟨main, hsplit, hmain⟩ := convert_split item f inp ms i oi hf hin ht
  rw [hsplit, List.filter_append]
  have h1 : main.filter (isReachFor e) = [] := by
    rw [List.filter_eq_nil_iff]
    intro a ha
    have h2 := List.all_eq_true.mp hmain a ha
    cases a <;> simp_all [isMainDesc, isReachFor]
  rw [h1, List.nil_append, reach_lines_filter_edge, hee]
  cases hx : edgeEntry ee e with
  | none => simp only [hx]; rfl
  | some v => simp only [hx]; rfl

/-- Witness for the amended C4 theorem: a button item with `top = 30` present
and non-zero on a 10×10 frame, checked at the `up` edge. -/
theorem C4_witness :
    (convert_item_to_descriptor
      ⟨some ⟨0, 0, 10, 10⟩, some (Inputs.list ["a"]),
       some ⟨some 30, none, some 0, none⟩⟩ ⟨10, 10⟩ 0 0).filter (isReachFor .up) =
      (match edgeEntry ⟨some 30, none, some 0, none⟩ Edge.up with
       | some v => if v == 0 then []
                   else [DescLine.reach 0 0 Edge.up
                          (round2 (1 + v / (Frame.height ⟨0, 0, 10, 10⟩ / 2)))]
       | none => []) :=
  C4_extended_edges _ ⟨0, 0, 10, 10⟩ _ _ _ 0 0 .up rfl rfl (by decide) rfl

/-- C5: `normalize_frame` returns the claimed center and half-extent
formulas, and normalizing the full-size rectangle `(0, 0, W, H)` by the
mapping size `(W, H)` gives center `(1/2, 1/2)` and half-extents
`(1/2, 1/2)` whenever both dimensions are non-zero. -/
theorem C5_normalize_frame (f : Frame) (ms : MappingSize)
    (hw : ms.width ≠ 0) (hh : ms.height ≠ 0) :
    normalize_frame f ms =
      ((f.x + f.width / 2) / ms.width, (f.y + f.height / 2) / ms.height,
       (f.width / 2) / ms.width, (f.height / 2) / ms.height) ∧
    normalize_frame ⟨0, 0, ms.width, ms.height⟩ ms = (1/2, 1/2, 1/2, 1/2) := by
  refine ⟨rfl, ?_⟩
  unfold normalize_frame
  simp only [Prod.mk.injEq, zero_add]
  refine ⟨?_, ?_, ?_, ?_⟩ <;> field_simp <;> ring

/-- Witness for C5 at a concrete frame and a 10×20 mapping size. -/
theorem C5_witness :
    normalize_frame ⟨1, 2, 3, 4⟩ ⟨10, 20⟩ =
      ((1 + 3 / 2) / 10, (2 + 4 / 2) / 20, (3 / 2) / 10, (4 / 2) / 20) ∧
    normalize_frame ⟨0, 0, 10, 20⟩ ⟨10, 20⟩ = (1/2, 1/2, 1/2, 1/2) :=
  C5_normalize_frame ⟨1, 2, 3, 4⟩ ⟨10, 20⟩ (by norm_num) (by norm_num)

theorem minFold_le_init (a : ℚ) (l : List ℚ) : minFold a l ≤ a := by
  induction l generalizing a with
  | nil => exact le_refl a
  | cons q t ih => exact le_trans (ih (min a q)) (min_le_left a q)

theorem minFold_le_mem (a q : ℚ) (l : List ℚ) (h : q ∈ l) : minFold a l ≤ q := by
  induction l generalizing a with
  | nil => cases h
  | cons p t ih =>
    show minFold (min a p) t ≤ q
    rcases List.mem_cons.mp h with h1 | h2
    · subst h1
      exact le_trans (minFold_le_init _ _) (min_le_right a q)
    · exact ih _ h2

theorem le_minFold (c a : ℚ) (l : List ℚ) (h1 : c ≤ a) (h2 : ∀ q ∈ l, c ≤ q) :
    c ≤ minFold a l := by
  induction l generalizing a with
  | nil => exact h1
  | cons p t ih =>
    exact ih (min a p) (le_min h1 (h2 p (List.mem_cons_self p t)))
      (fun q hq => h2 q (List.mem_cons_of_mem p hq))

theorem init_le_maxFold (a : ℚ) (l : List ℚ) : a ≤ maxFold a l := by
  induction l generalizing a with
  | nil => exact le_refl a
  | cons q t ih => exact le_trans (le_max_left a q) (ih (max a q))

theorem mem_le_maxFold (a q : ℚ) (l : List ℚ) (h : q ∈ l) : q ≤ maxFold a l := by
  induction l generalizing a with
  | nil => cases h
  | cons p t ih =>
    show q ≤ maxFold (max a p) t
    rcases List.mem_cons.mp h with h1 | h2
    · subst h1
      exact le_trans (le_max_right a q) (init_le_maxFold _ _)
    · exact ih _ h2

theorem maxFold_le (c a : ℚ) (l : List ℚ) (h1 : a ≤ c) (h2 : ∀ q ∈ l, q ≤ c) :
    maxFold a l ≤ c := by
  induction l generalizing a with
  | nil => exact h1
  | cons p t ih =>
    exact ih (max a p) (max_le h1 (h2 p (List.mem_cons_self p t)))
      (fun q hq => h2 q (List.mem_cons_of_mem p hq))

/-- Rectangle `outer` covers rectangle `inner` (axis-aligned containment of
the spanned pixel regions). -/
def covers (outer inner : Frame) : Prop :=
  outer.x ≤ inner.x ∧ outer.y ≤ inner.y ∧
  inner.x + inner.width ≤ outer.x + outer.width ∧
  inner.y + inner.height ≤ outer.y + outer.height

/-- C6: on a non-empty sequence, `compute_bounding_box` returns the minimal
axis-aligned rectangle covering every input rectangle; a singleton returns
its rectangle unchanged; the empty sequence returns `none`. -/
theorem C6_bounding_box (f : Frame) (t : List Frame) :
    (∃ bb, compute_bounding_box (f :: t) = some bb ∧
       (∀ g ∈ f :: t, covers bb g) ∧
       ∀ c, (∀ g ∈ f :: t, covers c g) → covers c bb) ∧
    compute_bounding_box [f] = some f ∧
    compute_bounding_box ([] : List Frame) = none := by
  have hsingle : compute_bounding_box [f] = some f := by
    show some ⟨f.x, f.y, f.x + f.width - f.x, f.y + f.height - f.y⟩ = some f
    have h1 : f.x + f.width - f.x = f.width := by ring
    have h2 : f.y + f.height - f.y = f.height := by ring
    rw [h1, h2]
  refine ⟨?_, hsingle, rfl⟩
  refine ⟨⟨minFold f.x (t.map Frame.x), minFold f.y (t.map Frame.y),
     maxFold (f.x + f.width) (t.map fun g => g.x + g.width) -
       minFold f.x (t.map Frame.x),
     maxFold (f.y + f.height) (t.map fun g => g.y + g.height) -
       minFold f.y (t.map Frame.y)⟩, rfl, ?_, ?_⟩
  · intro g hg
    refine ⟨?_, ?_, ?_, ?_⟩
    · rcases List.mem_cons.mp hg with h | h
      · subst h
        exact minFold_le_init _ _
      · exact minFold_le_mem _ _ _ (List.mem_map_of_mem Frame.x h)
    · rcases List.mem_cons.mp hg with h | h
      · subst h
        exact minFold_le_init _ _
      · exact minFold_le_mem _ _ _ (List.mem_map_of_mem Frame.y h)
    · have he : minFold f.x (t.map Frame.x) +
          (maxFold (f.x + f.width) (t.map fun g => g.x + g.width) -
            minFold f.x (t.map Frame.x)) =
          maxFold (f.x + f.width) (t.map fun g => g.x + g.width) := by ring
      rw [he]
      rcases List.mem_cons.mp hg with h | h
      · subst h
        exact init_le_maxFold _ _
      · exact mem_le_maxFold _ _ _ (List.mem_map_of_mem (fun g => g.x + g.width) h)
    · have he : minFold f.y (t.map Frame.y) +
          (maxFold (f.y + f.height) (t.map fun g => g.y + g.height) -
            minFold f.y (t.map Frame.y)) =
          maxFold (f.y + f.height) (t.map fun g => g.y + g.height) := by ring
      rw [he]
      rcases List.mem_cons.mp hg with h | h
      · subst h
        exact init_le_maxFold _ _
      · exact mem_le_maxFold _ _ _ (List.mem_map_of_mem (fun g => g.y + g.height) h)
  · intro c hc
    have hcf := hc f (List.mem_cons_self f t)
    refine ⟨?_, ?_, ?_, ?_⟩
    · exact le_minFold _ _ _ hcf.1 (by
        intro q hq
        rcases List.mem_map.mp hq with ⟨g, hg, hgq⟩
        subst hgq
        exact (hc g (List.mem_cons_of_mem f hg)).1)
    · exact le_minFold _ _ _ hcf.2.1 (by
        intro q hq
        rcases List.mem_map.mp hq with ⟨g, hg, hgq⟩
        subst hgq
        exact (hc g (List.mem_cons_of_mem f hg)).2.1)
    · have he : minFold f.x (t.map Frame.x) +
          (maxFold (f.x + f.width) (t.map fun g => g.x + g.width) -
            minFold f.x (t.map Frame.x)) =
          maxFold (f.x + f.width) (t.map fun g => g.x + g.width) := by ring
      rw [he]
      exact maxFold_le _ _ _ hcf.2.2.1 (by
        intro q hq
        rcases List.mem_map.mp hq with ⟨g, hg, hgq⟩
        subst hgq
        exact (hc g (List.mem_cons_of_mem f hg)).2.2.1)
    · have he : minFold f.y (t.map Frame.y) +
          (maxFold (f.y + f.height) (t.map fun g => g.y + g.height) -
            minFold f.y (t.map Frame.y)) =
          maxFold (f.y + f.height) (t.map fun g => g.y + g.height) := by ring
      rw [he]
      exact maxFold_le _ _ _ hcf.2.2.2 (by
        intro q hq
        rcases List.mem_map.mp hq with ⟨g, hg, hgq⟩
        subst hgq
        exact (hc g (List.mem_cons_of_mem f hg)).2.2.2)

/-- Witness for C6 at two concrete overlapping rectangles. -/
theorem C6_witness :
    (∃ bb, compute_bounding_box [⟨0, 0, 2, 2⟩, ⟨2, 3, 4, 4⟩] = some bb ∧
       (∀ g ∈ [(⟨0, 0, 2, 2⟩ : Frame), ⟨2, 3, 4, 4⟩], covers bb g) ∧
       ∀ c, (∀ g ∈ [(⟨0, 0, 2, 2⟩ : Frame), ⟨2, 3, 4, 4⟩], covers c g) → covers c bb) ∧
    compute_bounding_box [⟨0, 0, 2, 2⟩] = some ⟨0, 0, 2, 2⟩ ∧
    compute_bounding_box ([] : List Frame) = none :=
  C6_bounding_box ⟨0, 0, 2, 2⟩ [⟨2, 3, 4, 4⟩]

/-- C9: for a rectangle with non-negative position and extents lying within
the mapping-size bounds, every normalized component is non-negative and the
horizontal extent stays inside the unit interval: `cx - hw ≥ 0` and
`cx + hw ≤ 1` — exactly, in rational arithmetic. -/
theorem C9_normalized_in_bounds (f : Frame) (ms : MappingSize)
    (hx : 0 ≤ f.x) (hy : 0 ≤ f.y) (hw0 : 0 ≤ f.width) (hh0 : 0 ≤ f.height)
    (hxw : f.x + f.width ≤ ms.width) (hyh : f.y + f.height ≤ ms.height)
    (hW : 0 < ms.width) (hH : 0 < ms.height) :
    0 ≤ (normalize_frame f ms).1 ∧ 0 ≤ (normalize_frame f ms).2.1 ∧
    0 ≤ (normalize_frame f ms).2.2.1 ∧ 0 ≤ (normalize_frame f ms).2.2.2 ∧
    0 ≤ (normalize_frame f ms).1 - (normalize_frame f ms).2.2.1 ∧
    (normalize_frame f ms).1 + (normalize_frame f ms).2.2.1 ≤ 1 := by
  unfold normalize_frame
  simp only
  refine ⟨?_, ?_, ?_, ?_, ?_, ?_⟩
  · exact div_nonneg (by linarith) hW.le
  · exact div_nonneg (by linarith) hH.le
  · exact div_nonneg (by linarith) hW.le
  · exact div_nonneg (by linarith) hH.le
  · rw [div_sub_div_same]
    exact div_nonneg (by linarith) hW.le
  · rw [div_add_div_same, div_le_one hW]
    linarith

/-- Witness for C9 at a concrete in-bounds frame. -/
theorem C9_witness :
    0 ≤ (normalize_frame ⟨1, 2, 3, 4⟩ ⟨10, 20⟩).1 ∧
    0 ≤ (normalize_frame ⟨1, 2, 3, 4⟩ ⟨10, 20⟩).2.1 ∧
    0 ≤ (normalize_frame ⟨1, 2, 3, 4⟩ ⟨10, 20⟩).2.2.1 ∧
    0 ≤ (normalize_frame ⟨1, 2, 3, 4⟩ ⟨10, 20⟩).2.2.2 ∧
    0 ≤ (normalize_frame ⟨1, 2, 3, 4⟩ ⟨10, 20⟩).1 -
      (normalize_frame ⟨1, 2, 3, 4⟩ ⟨10, 20⟩).2.2.1 ∧
    (normalize_frame ⟨1, 2, 3, 4⟩ ⟨10, 20⟩).1 +
      (normalize_frame ⟨1, 2, 3, 4⟩ ⟨10, 20⟩).2.2.1 ≤ 1 :=
  C9_normalized_in_bounds ⟨1, 2, 3, 4⟩ ⟨10, 20⟩ (by norm_num) (by norm_num)
    (by norm_num) (by norm_num) (by norm_num) (by norm_num) (by norm_num) (by norm_num)

theorem edgeReach_all_reach (oi i : Nat) (e : Edge) (entry : Option ℚ) (dim : ℚ) :
    (edgeReach oi i e entry dim).all isReachLine = true := by
  cases entry with
  | none => rfl
  | some v =>
    simp only [edgeReach]
    split
    · rfl
    · simp [isReachLine]

theorem reach_lines_all_reach (it : Item) (f : Frame) (oi i : Nat) :
    (reach_lines it f oi i).all isReachLine = true := by
  unfold reach_lines
  cases it.extendedEdges with
  | none => rfl
  | some ee => simp [List.all_append, edgeReach_all_reach]

/-- C10: an item with a frame and a non-empty `inputs` value whose
classification emits no main descriptor line still emits its reach lines:
the output equals exactly the reach lines (so it can consist solely of
`_reach_` lines referencing a descriptor id with no main line), every
output line is a reach line, and per edge there is exactly one line when
the `extendedEdges` entry is present and non-zero, none otherwise. -/
theorem C10_reach_without_main (item : Item) (f : Frame) (inp : Inputs)
    (ms : MappingSize) (i oi : Nat) (e : Edge)
    (hf : item.frame = some f) (hin : item.inputs = some inp)
    (ht : inputsTruthy inp = true)
    (hmain : (convert_item_to_descriptor item ms i oi).filter isMainDesc = []) :
    convert_item_to_descriptor item ms i oi = reach_lines item f oi i ∧
    (convert_item_to_descriptor item ms i oi).all isReachLine = true ∧
    (convert_item_to_descriptor item ms i oi).filter (isReachFor e) =
      (match item.extendedEdges with
       | some ee =>
         (match edgeEntry ee e with
          | some v => if v == 0 then []
                      else [DescLine.reach oi i e (round2 (1 + v / (edgeDim f e / 2)))]
          | none => [])
       | none => []) := by
  obtain ⟨main, hsplit, hallmain⟩ := convert_split item f inp ms i oi hf hin ht
  have hmain0 : main = [] := by
    rw [hsplit, List.filter_append, reach_lines_filter_main, List.append_nil,
      List.filter_eq_self.mpr (fun a ha => List.all_eq_true.mp hallmain a ha)] at hmain
    exact hmain
  rw [hsplit, hmain0, List.nil_append]
  refine ⟨rfl, reach_lines_all_reach _ _ _ _, ?_⟩
  rw [reach_lines_filter_edge]
  cases hE : item.extendedEdges with
  | none => rfl
  | some ee =>
    cases hx : edgeEntry ee e with
    | none => simp only [hx]; rfl
    | some v => simp only [hx]; rfl

/-- Witness for C10: an unrecognized composite mapping (single key `a`)
with a present non-zero `top` extension emits only the one reach line. -/
theorem C10_witness :
    convert_item_to_descriptor
        ⟨some ⟨0, 0, 10, 10⟩, some (Inputs.dict [("a", "b")]),
         some ⟨some 30, none, none, none⟩⟩ ⟨10, 10⟩ 0 0 =
      reach_lines
        ⟨some ⟨0, 0, 10, 10⟩, some (Inputs.dict [("a", "b")]),
         some ⟨some 30, none, none, none⟩⟩ ⟨0, 0, 10, 10⟩ 0 0 ∧
    (convert_item_to_descriptor
        ⟨some ⟨0, 0, 10, 10⟩, some (Inputs.dict [("a", "b")]),
         some ⟨some 30, none, none, none⟩⟩ ⟨10, 10⟩ 0 0).all isReachLine = true ∧
    (convert_item_to_descriptor
        ⟨some ⟨0, 0, 10, 10⟩, some (Inputs.dict [("a", "b")]),
         some ⟨some 30, none, none, none⟩⟩ ⟨10, 10⟩ 0 0).filter (isReachFor .up) =
      (match (some (⟨some 30, none, none, none⟩ : ExtendedEdges) : Option ExtendedEdges) with
       | some ee =>
         (match edgeEntry ee Edge.up with
          | some v => if v == 0 then []
                      else [DescLine.reach 0 0 Edge.up
                             (round2 (1 + v / (edgeDim ⟨0, 0, 10, 10⟩ Edge.up / 2)))]
          | none => [])
       | none => []) :=
  C10_reach_without_main _ ⟨0, 0, 10, 10⟩ _ _ 0 0 .up rfl rfl (by decide) rfl

theorem convert_frame_none (it : Item) (ms : MappingSize) (i oi : Nat)
    (h : it.frame = none) : convert_item_to_descriptor it ms i oi = [] := by
  obtain ⟨fr, inp, ee⟩ := it
  simp only at h
  subst h
  rfl

theorem convert_inputs_none (it : Item) (ms : MappingSize) (i oi : Nat) (f : Frame)
    (hf : it.frame = some f) (h : it.inputs = none) :
    convert_item_to_descriptor it ms i oi = [] := by
  obtain ⟨fr, inp, ee⟩ := it
  simp only at hf h
  subst hf h
  rfl

theorem convert_not_truthy (it : Item) (ms : MappingSize) (i oi : Nat) (f : Frame)
    (inp : Inputs) (hf : it.frame = some f) (hin : it.inputs = some inp)
    (ht : inputsTruthy inp = false) :
    convert_item_to_descriptor it ms i oi = [] := by
  obtain ⟨fr, inpo, ee⟩ := it
  simp only at hf hin
  subst hf hin
  unfold convert_item_to_descriptor
  simp only [ht, Bool.false_eq_true, if_false]

theorem convert_desc_or_reach (it : Item) (ms : MappingSize) (i oi : Nat)
    (dl : DescLine) (hdl : dl ∈ convert_item_to_descriptor it ms i oi) :
    isMainDesc dl = true ∨ isReachLine dl = true := by
  rcases hfr : it.frame with _ | f
  · rw [convert_frame_none it ms i oi hfr] at hdl
    cases hdl
  rcases hin : it.inputs with _ | inp
  · rw [convert_inputs_none it ms i oi f hfr hin] at hdl
    cases hdl
  cases ht : inputsTruthy inp with
  | false =>
    rw [convert_not_truthy it ms i oi f inp hfr hin ht] at hdl
    cases hdl
  | true =>
    obtain ⟨main, hsplit, hallmain⟩ := convert_split it f inp ms i oi hfr hin ht
    rw [hsplit, List.mem_append] at hdl
    rcases hdl with h | h
    · exact Or.inl (List.all_eq_true.mp hallmain dl h)
    · exact Or.inr (List.all_eq_true.mp (reach_lines_all_reach it f oi i) dl h)

theorem itemDescLines_desc_or_reach (items : List Item) (ms : MappingSize)
    (idx oi : Nat) (dl : DescLine) (hdl : dl ∈ itemDescLines items ms idx oi) :
    isMainDesc dl = true ∨ isReachLine dl = true := by
  induction items generalizing idx with
  | nil => cases hdl
  | cons it rest ih =>
    simp only [itemDescLines, List.mem_append] at hdl
    rcases hdl with h | h
    · exact convert_desc_or_reach it ms idx oi dl h
    · exact ih _ h

theorem descLine_not_nt (dl : DescLine)
    (h : isMainDesc dl = true ∨ isReachLine dl = true) :
    isNextTargetLine (ConfigLine.descLine dl) = false := by
  cases dl with
  | desc a b c d e f g i => rfl
  | reach a b c d => rfl
  | nextTarget a b c => rcases h with h | h <;> simp [isMainDesc, isReachLine] at h

theorem viewportLines_not_nt (oi : Nat) (d : OrientationData) (c : ConfigLine)
    (hc : c ∈ viewportLines oi d) : isNextTargetLine c = false := by
  unfold viewportLines at hc
  rcases hv : selectViewport d with _ | vp
  · rw [hv] at hc
    cases hc
  · rw [hv] at hc
    rcases List.mem_singleton.mp hc with rfl
    rfl

theorem overlayBlock_no_nt (o : String) (oi : Nat) (d : OrientationData) (a : ℚ)
    (img : String) (c : ConfigLine) (hc : c ∈ overlayBlock o oi 1 d a img) :
    isNextTargetLine c = false := by
  unfold overlayBlock at hc
  rcases List.mem_append.mp hc with h | hlast
  · rcases List.mem_append.mp h with h | hmap
    · rcases List.mem_append.mp h with h | h3
      · rcases List.mem_append.mp h with hA | hB
        · rcases List.mem_cons.mp hA with rfl | hA
          · rfl
          rcases List.mem_cons.mp hA with rfl | hA
          · rfl
          rcases List.mem_cons.mp hA with rfl | hA
          · rfl
          rcases List.mem_cons.mp hA with rfl | hA
          · rfl
          rcases List.mem_cons.mp hA with rfl | hA
          · rfl
          cases hA
        · exact viewportLines_not_nt oi d c hB
      · rcases List.mem_cons.mp h3 with rfl | h3
        · rfl
        rcases List.mem_cons.mp h3 with rfl | h3
        · rfl
        rcases List.mem_cons.mp h3 with rfl | h3
        · rfl
        cases h3
    · rcases List.mem_map.mp hmap with ⟨dl, hdl, rfl⟩
      have hdp : descPart o oi 1 d = itemDescLines d.items d.mappingSize 0 oi := rfl
      rw [hdp] at hdl
      exact descLine_not_nt dl (itemDescLines_desc_or_reach _ _ _ _ dl hdl)
  · rcases List.mem_cons.mp hlast with rfl | h
    · rfl
    cases h

/-- C7: with both orientations present the config starts with
`overlays = 2` and the descriptor block of each overlay ends with the synthetic
rotate descriptor at index `items.length` followed by a `_next_target`
line naming the other orientation (the pair of the portrait block is followed by
the blank separator and the header of the landscape overlay; the landscape pair
closes the config); with a single orientation the config starts with
`overlays = 1` and contains no `_next_target` line anywhere. -/
theorem C7_overlays_and_rotation (p l : OrientationData) :
    ((generate_overlay_config (mkOrientations (some p) (some l)) (some p) (some l)).head? =
       some (ConfigLine.overlays 2)) ∧
    (∃ pre mid,
       generate_overlay_config (mkOrientations (some p) (some l)) (some p) (some l) =
         pre ++
         [ConfigLine.descLine (rotateDesc "portrait" 0 p.items.length),
          ConfigLine.descLine (DescLine.nextTarget 0 p.items.length "landscape"),
          ConfigLine.blank,
          ConfigLine.name 1 "landscape"] ++
         mid ++
         [ConfigLine.descLine (rotateDesc "landscape" 1 l.items.length),
          ConfigLine.descLine (DescLine.nextTarget 1 l.items.length "portrait"),
          ConfigLine.blank]) ∧
    ((generate_overlay_config (mkOrientations (some p) none) (some p) none).head? =
       some (ConfigLine.overlays 1)) ∧
    (∀ c ∈ generate_overlay_config (mkOrientations (some p) none) (some p) none,
       isNextTargetLine c = false) ∧
    ((generate_overlay_config (mkOrientations none (some l)) none (some l)).head? =
       some (ConfigLine.overlays 1)) ∧
    (∀ c ∈ generate_overlay_config (mkOrientations none (some l)) none (some l),
       isNextTargetLine c = false) := by
  have hgen : generate_overlay_config (mkOrientations (some p) (some l)) (some p) (some l) =
      ConfigLine.overlays 2 :: ConfigLine.blank ::
      (overlayBlock "portrait" 0 2 p (p.mappingSize.height / p.mappingSize.width)
         "portrait.png" ++
       (overlayBlock "landscape" 1 2 l (l.mappingSize.width / l.mappingSize.height)
         "landscape.png" ++ [])) := rfl
  have hdP : descPart "portrait" 0 2 p =
      itemDescLines p.items p.mappingSize 0 0 ++
      [rotateDesc "portrait" 0 p.items.length,
       DescLine.nextTarget 0 p.items.length "landscape"] := rfl
  have hdL : descPart "landscape" 1 2 l =
      itemDescLines l.items l.mappingSize 0 1 ++
      [rotateDesc "landscape" 1 l.items.length,
       DescLine.nextTarget 1 l.items.length "portrait"] := rfl
  refine ⟨rfl, ?_, rfl, ?_, rfl, ?_⟩
  · refine ⟨[ConfigLine.overlays 2, ConfigLine.blank,
       ConfigLine.name 0 "portrait", ConfigLine.image 0 "portrait.png",
       ConfigLine.fullScreen 0 true, ConfigLine.normalizedFlag 0 true,
       ConfigLine.aspectRatio 0 (p.mappingSize.height / p.mappingSize.width)] ++
       viewportLines 0 p ++
       [ConfigLine.blank, ConfigLine.descs 0 (numDescs 2 p), ConfigLine.blank] ++
       (itemDescLines p.items p.mappingSize 0 0).map ConfigLine.descLine,
       [ConfigLine.image 1 "landscape.png", ConfigLine.fullScreen 1 true,
        ConfigLine.normalizedFlag 1 true,
        ConfigLine.aspectRatio 1 (l.mappingSize.width / l.mappingSize.height)] ++
       viewportLines 1 l ++
       [ConfigLine.blank, ConfigLine.descs 1 (numDescs 2 l), ConfigLine.blank] ++
       (itemDescLines l.items l.mappingSize 0 1).map ConfigLine.descLine, ?_⟩
    rw [hgen]
    simp only [overlayBlock, hdP, hdL, List.map_append, List.map_cons, List.map_nil,
      List.append_assoc, List.cons_append, List.nil_append, List.append_nil]
  · intro c hc
    have hc2 : c ∈ ConfigLine.overlays 1 :: ConfigLine.blank ::
        (overlayBlock "portrait" 0 1 p (p.mappingSize.height / p.mappingSize.width)
          "portrait.png" ++ []) := hc
    rcases List.mem_cons.mp hc2 with rfl | hc3
    · rfl
    rcases List.mem_cons.mp hc3 with rfl | hc4
    · rfl
    rw [List.append_nil] at hc4
    exact overlayBlock_no_nt _ _ _ _ _ c hc4
  · intro c hc
    have hc2 : c ∈ ConfigLine.overlays 1 :: ConfigLine.blank ::
        (overlayBlock "landscape" 0 1 l (l.mappingSize.width / l.mappingSize.height)
          "landscape.png" ++ []) := hc
    rcases List.mem_cons.mp hc2 with rfl | hc3
    · rfl
    rcases List.mem_cons.mp hc3 with rfl | hc4
    · rfl
    rw [List.append_nil] at hc4
    exact overlayBlock_no_nt _ _ _ _ _ c hc4

/-- Witness for C7 at two concrete minimal orientations. -/
theorem C7_witness :
    ((generate_overlay_config
        (mkOrientations (some ⟨⟨10, 20⟩, [], [], none⟩) (some ⟨⟨20, 10⟩, [], [], none⟩))
        (some ⟨⟨10, 20⟩, [], [], none⟩) (some ⟨⟨20, 10⟩, [], [], none⟩)).head? =
       some (ConfigLine.overlays 2)) ∧
    (∃ pre mid,
       generate_overlay_config
         (mkOrientations (some ⟨⟨10, 20⟩, [], [], none⟩) (some ⟨⟨20, 10⟩, [], [], none⟩))
         (some ⟨⟨10, 20⟩, [], [], none⟩) (some ⟨⟨20, 10⟩, [], [], none⟩) =
         pre ++
         [ConfigLine.descLine (rotateDesc "portrait" 0 (List.length ([] : List Item))),
          ConfigLine.descLine (DescLine.nextTarget 0 (List.length ([] : List Item)) "landscape"),
          ConfigLine.blank,
          ConfigLine.name 1 "landscape"] ++
         mid ++
         [ConfigLine.descLine (rotateDesc "landscape" 1 (List.length ([] : List Item))),
          ConfigLine.descLine (DescLine.nextTarget 1 (List.length ([] : List Item)) "portrait"),
          ConfigLine.blank]) ∧
    ((generate_overlay_config (mkOrientations (some ⟨⟨10, 20⟩, [], [], none⟩) none)
        (some ⟨⟨10, 20⟩, [], [], none⟩) none).head? = some (ConfigLine.overlays 1)) ∧
    (∀ c ∈ generate_overlay_config (mkOrientations (some ⟨⟨10, 20⟩, [], [], none⟩) none)
        (some ⟨⟨10, 20⟩, [], [], none⟩) none, isNextTargetLine c = false) ∧
    ((generate_overlay_config (mkOrientations none (some ⟨⟨20, 10⟩, [], [], none⟩))
        none (some ⟨⟨20, 10⟩, [], [], none⟩)).head? = some (ConfigLine.overlays 1)) ∧
    (∀ c ∈ generate_overlay_config (mkOrientations none (some ⟨⟨20, 10⟩, [], [], none⟩))
        none (some ⟨⟨20, 10⟩, [], [], none⟩), isNextTargetLine c = false) :=
  C7_overlays_and_rotation ⟨⟨10, 20⟩, [], [], none⟩ ⟨⟨20, 10⟩, [], [], none⟩

theorem filter_descs_map_descLine (xs : List DescLine) :
    (xs.map ConfigLine.descLine).filter isDescsLine = [] := by
  induction xs with
  | nil => rfl
  | cons a t ih => simp [isDescsLine, ih]

theorem viewportLines_filter_descs (oi : Nat) (d : OrientationData) :
    (viewportLines oi d).filter isDescsLine = [] := by
  unfold viewportLines
  rcases hv : selectViewport d with _ | vp <;> simp only [hv] <;> rfl

theorem overlayBlock_filter_descs (o : String) (oi n : Nat) (d : OrientationData)
    (a : ℚ) (img : String) :
    (overlayBlock o oi n d a img).filter isDescsLine =
      [ConfigLine.descs oi (numDescs n d)] := by
  unfold overlayBlock
  simp [List.filter_append, viewportLines_filter_descs, filter_descs_map_descLine,
    isDescsLine]

/-- C8: the `_descs` value of each overlay equals the length of the
source item list of that orientation, plus exactly one when more than one
orientation exists (the synthetic rotate descriptor); an item emitting zero
or several descriptor lines still contributes exactly one to the count. -/
theorem C8_descs_count (p l d : OrientationData) :
    (generate_overlay_config (mkOrientations (some p) (some l)) (some p) (some l)).filter
        isDescsLine =
      [ConfigLine.descs 0 (p.items.length + 1), ConfigLine.descs 1 (l.items.length + 1)] ∧
    (generate_overlay_config (mkOrientations (some d) none) (some d) none).filter
        isDescsLine = [ConfigLine.descs 0 d.items.length] ∧
    (generate_overlay_config (mkOrientations none (some d)) none (some d)).filter
        isDescsLine = [ConfigLine.descs 0 d.items.length] := by
  refine ⟨?_, ?_, ?_⟩
  · rw [show generate_overlay_config (mkOrientations (some p) (some l)) (some p) (some l) =
        ConfigLine.overlays 2 :: ConfigLine.blank ::
        (overlayBlock "portrait" 0 2 p (p.mappingSize.height / p.mappingSize.width)
           "portrait.png" ++
         (overlayBlock "landscape" 1 2 l (l.mappingSize.width / l.mappingSize.height)
           "landscape.png" ++ [])) from rfl]
    simp [List.filter_append, overlayBlock_filter_descs, isDescsLine, numDescs]
  · rw [show generate_overlay_config (mkOrientations (some d) none) (some d) none =
        ConfigLine.overlays 1 :: ConfigLine.blank ::
        (overlayBlock "portrait" 0 1 d (d.mappingSize.height / d.mappingSize.width)
           "portrait.png" ++ []) from rfl]
    simp [List.filter_append, overlayBlock_filter_descs, isDescsLine, numDescs]
  · rw [show generate_overlay_config (mkOrientations none (some d)) none (some d) =
        ConfigLine.overlays 1 :: ConfigLine.blank ::
        (overlayBlock "landscape" 0 1 d (d.mappingSize.width / d.mappingSize.height)
           "landscape.png" ++ []) from rfl]
    simp [List.filter_append, overlayBlock_filter_descs, isDescsLine, numDescs]

/-- Witness for C8 at concrete orientations with one item and two items:
the zero-line item (no frame) still counts toward `_descs`. -/
theorem C8_witness :
    (generate_overlay_config
        (mkOrientations (some ⟨⟨10, 20⟩, [⟨none, none, none⟩], [], none⟩)
          (some ⟨⟨20, 10⟩, [⟨none, none, none⟩, ⟨none, none, none⟩], [], none⟩))
        (some ⟨⟨10, 20⟩, [⟨none, none, none⟩], [], none⟩)
        (some ⟨⟨20, 10⟩, [⟨none, none, none⟩, ⟨none, none, none⟩], [], none⟩)).filter
        isDescsLine =
      [ConfigLine.descs 0 (List.length [(⟨none, none, none⟩ : Item)] + 1),
       ConfigLine.descs 1
         (List.length [(⟨none, none, none⟩ : Item), ⟨none, none, none⟩] + 1)] ∧
    (generate_overlay_config
        (mkOrientations (some ⟨⟨10, 20⟩, [], [], none⟩) none)
        (some ⟨⟨10, 20⟩, [], [], none⟩) none).filter isDescsLine =
      [ConfigLine.descs 0 (List.length ([] : List Item))] ∧
    (generate_overlay_config
        (mkOrientations none (some ⟨⟨10, 20⟩, [], [], none⟩))
        none (some ⟨⟨10, 20⟩, [], [], none⟩)).filter isDescsLine =
      [ConfigLine.descs 0 (List.length ([] : List Item))] := by
  have h := C8_descs_count ⟨⟨10, 20⟩, [⟨none, none, none⟩], [], none⟩
    ⟨⟨20, 10⟩, [⟨none, none, none⟩, ⟨none, none, none⟩], [], none⟩
    ⟨⟨10, 20⟩, [], [], none⟩
  exact h
